import Mathlib

/-!
Verification development for the AcitechAppServ rate-limiting and request-context
middleware (`app/middleware/rate_limiting.py`, `app/middleware/logging_middleware.py`).

The Python middleware is shallowly embedded: timestamps and durations are modelled
as integers (the source uses real-valued `time.time()`; every comparison and
arithmetic operation involved is order-theoretic, so the integer model is faithful),
the limiter's `self.requests` dict is an association list, and Python truthiness
checks on strings/floats are made explicit.
-/

namespace Acitech

/-- First-match lookup in an association list, modelling Python dict access
(dicts have unique keys, so first-match agrees with dict lookup). -/
def alistGet {α : Type} (m : List (String × α)) (k : String) : Option α :=
  match m with
  | [] => none
  | (k', v) :: rest => if k' = k then some v else alistGet rest k

/-- Update-or-insert in an association list, modelling Python `d[k] = v`. -/
def alistSet {α : Type} (m : List (String × α)) (k : String) (v : α) : List (String × α) :=
  match m with
  | [] => [(k, v)]
  | (k', v') :: rest => if k' = k then (k, v) :: rest else (k', v') :: alistSet rest k v

/-- One arrival record `(timestamp, count)` as stored in `self.requests[key]`. -/
abbrev Record := Int × Int

/-- State of `SimpleRateLimiter`: the `requests` dict and `last_cleanup`.
`cleanup_interval` is the constant 300. -/
structure LimiterState where
  requests : List (String × List Record)
  lastCleanup : Int
  deriving Repr, DecidableEq

/-- `self.cleanup_interval = 300` (5 minutes). -/
def cleanupInterval : Int := 300

/-- `SimpleRateLimiter._cleanup_old_entries`: for every key keep only records with
`timestamp > cutoff_time`, then delete keys whose record list became empty. -/
def cleanupOldEntries (m : List (String × List Record)) (cutoff : Int) :
    List (String × List Record) :=
  (m.map (fun kv => (kv.1, kv.2.filter (fun r => cutoff < r.1)))).filter
    (fun kv => not kv.2.isEmpty)

/-- The `info` dict returned by `is_allowed`; fields absent from a branch are `none`. -/
structure RateInfo where
  allowed : Bool
  limit : Int
  current : Int
  window : Int
  resetTime : Int
  retryAfter : Option Int
  remaining : Option Int
  deriving Repr, DecidableEq

/-- `min(timestamp + window for timestamp, _ in request_history)` with the source's
`if request_history else current_time` default. -/
def minResetTime (hist : List Record) (window now : Int) : Int :=
  match hist.map (fun r => r.1 + window) with
  | [] => now
  | x :: xs => xs.foldl min x

/-- The periodic-cleanup prologue of `is_allowed`: when
`current_time - self.last_cleanup > self.cleanup_interval`, run
`_cleanup_old_entries(current_time - window)` and stamp `last_cleanup`. -/
def afterCleanup (st : LimiterState) (window now : Int) : LimiterState :=
  if cleanupInterval < now - st.lastCleanup then
    { requests := cleanupOldEntries st.requests (now - window), lastCleanup := now }
  else st

/-- The key's request history after the in-check prune
(`request_history[:] = [... if current_time - timestamp < window]`),
applied to the state the cleanup prologue left behind. -/
def survivors (st : LimiterState) (key : String) (window now : Int) : List Record :=
  ((alistGet (afterCleanup st window now).requests key).getD []).filter
    (fun r => now - r.1 < window)

/-- `sum(count for _, count in request_history)`. -/
def sumCounts (hist : List Record) : Int :=
  (hist.map (fun r => r.2)).sum

/-- `SimpleRateLimiter.is_allowed(key, limit, window)` at time `now`.
Returns `(allowed, info)` plus the successor limiter state (the Python method
mutates `self.requests` in place; the pruned history is stored even on denial). -/
def is_allowed (st : LimiterState) (key : String) (limit window now : Int) :
    Bool × RateInfo × LimiterState :=
  -- `current_requests >= limit` with `current_requests = sum(count for _, count in history)`
  if limit ≤ sumCounts (survivors st key window now) then
    (false,
     { allowed := false, limit := limit, current := sumCounts (survivors st key window now)
       window := window
       resetTime := minResetTime (survivors st key window now) window now
       retryAfter := some (if (survivors st key window now).isEmpty then 0
         else minResetTime (survivors st key window now) window now - now)
       remaining := none },
     { afterCleanup st window now with
       requests := alistSet (afterCleanup st window now).requests key
         (survivors st key window now) })
  else
    (true,
     { allowed := true, limit := limit, current := sumCounts (survivors st key window now) + 1
       window := window
       resetTime := now + window
       retryAfter := none
       remaining := some (limit - sumCounts (survivors st key window now) - 1) },
     { afterCleanup st window now with
       requests := alistSet (afterCleanup st window now).requests key
         (survivors st key window now ++ [(now, 1)]) })

/-- A sequence of `is_allowed` calls for one key at the given times, threading the
limiter state and collecting the boolean decisions. -/
def runSeq (st : LimiterState) (key : String) (limit window : Int) (times : List Int) :
    List Bool × LimiterState :=
  match times with
  | [] => ([], st)
  | t :: ts =>
    let r := is_allowed st key limit window t
    let rest := runSeq r.2.2 key limit window ts
    (r.1 :: rest.1, rest.2)

/-! ### Association-list lemmas -/

theorem alistGet_set_self {α : Type} (m : List (String × α)) (k : String) (v : α) :
    alistGet (alistSet m k v) k = some v := by
  induction m with
  | nil => simp [alistGet, alistSet]
  | cons p rest ih =>
    obtain ⟨k', v'⟩ := p
    by_cases h : k' = k
    · simp [alistSet, alistGet, h]
    · simp [alistSet, alistGet, h, ih]

theorem alistGet_set_ne {α : Type} (m : List (String × α)) {k k' : String} (v : α)
    (h : k' ≠ k) : alistGet (alistSet m k' v) k = alistGet m k := by
  induction m with
  | nil => simp [alistGet, alistSet, h]
  | cons p rest ih =>
    obtain ⟨k₁, v₁⟩ := p
    by_cases h1 : k₁ = k'
    · subst h1
      simp only [alistSet, if_pos rfl]
      simp only [alistGet, if_neg h]
    · simp only [alistSet, if_neg h1]
      by_cases h2 : k₁ = k
      · simp only [alistGet, if_pos h2]
      · simp only [alistGet, if_neg h2, ih]

theorem alistGet_eq_none_of_not_mem {α : Type} {m : List (String × α)} {k : String}
    (h : k ∉ m.map Prod.fst) : alistGet m k = none := by
  induction m with
  | nil => rfl
  | cons p rest ih =>
    obtain ⟨k', v'⟩ := p
    simp only [List.map_cons, List.mem_cons, not_or] at h
    have hne : ¬ k' = k := fun he => h.1 he.symm
    simp only [alistGet, if_neg hne]
    exact ih h.2

theorem alistSet_keys_subset {α : Type} (m : List (String × α)) (k : String) (v : α) :
    ((alistSet m k v).map Prod.fst) ⊆ k :: m.map Prod.fst := by
  induction m with
  | nil => simp [alistSet]
  | cons p rest ih =>
    obtain ⟨k', v'⟩ := p
    by_cases h : k' = k
    · subst h
      simp only [alistSet, if_pos rfl, List.map_cons]
      exact List.cons_subset_cons _ (List.subset_cons_self _ _)
    · simp only [alistSet, if_neg h, List.map_cons]
      intro x hx
      rcases List.mem_cons.mp hx with rfl | hx2
      · exact List.mem_cons_of_mem _ (List.mem_cons_self _ _)
      · rcases List.mem_cons.mp (ih hx2) with rfl | hx3
        · exact List.mem_cons_self _ _
        · exact List.mem_cons_of_mem _ (List.mem_cons_of_mem _ hx3)

theorem nodup_alistSet {α : Type} {m : List (String × α)} {k : String} {v : α}
    (h : (m.map Prod.fst).Nodup) : ((alistSet m k v).map Prod.fst).Nodup := by
  induction m with
  | nil => simp [alistSet]
  | cons p rest ih =>
    obtain ⟨k', v'⟩ := p
    simp only [List.map_cons, List.nodup_cons] at h
    by_cases hk : k' = k
    · subst hk
      simpa [alistSet] using h
    · simp only [alistSet, if_neg hk, List.map_cons, List.nodup_cons]
      refine ⟨fun hm => ?_, ih h.2⟩
      rcases List.mem_cons.mp (alistSet_keys_subset rest k v hm) with rfl | hmem
      · exact hk rfl
      · exact h.1 hmem

theorem cleanup_keys_sublist (m : List (String × List Record)) (c : Int) :
    ((cleanupOldEntries m c).map Prod.fst).Sublist (m.map Prod.fst) := by
  unfold cleanupOldEntries
  have h1 := List.filter_sublist
    (l := m.map (fun kv => (kv.1, kv.2.filter (fun r => c < r.1))))
    (p := fun kv => not kv.2.isEmpty)
  have h2 := h1.map Prod.fst
  simpa [List.map_map, Function.comp] using h2

theorem nodup_cleanup {m : List (String × List Record)} {c : Int}
    (h : (m.map Prod.fst).Nodup) :
    ((cleanupOldEntries m c).map Prod.fst).Nodup :=
  List.Nodup.sublist (cleanup_keys_sublist m c) h

theorem alistGet_cleanup {m : List (String × List Record)} {c : Int} {k : String}
    (hnd : (m.map Prod.fst).Nodup) :
    alistGet (cleanupOldEntries m c) k =
      (alistGet m k).bind (fun recs =>
        if (recs.filter (fun r => c < r.1)).isEmpty then none
        else some (recs.filter (fun r => c < r.1))) := by
  induction m with
  | nil => rfl
  | cons p rest ih =>
    obtain ⟨k₁, recs₁⟩ := p
    simp only [List.map_cons, List.nodup_cons] at hnd
    have hstep : cleanupOldEntries ((k₁, recs₁) :: rest) c =
        if (recs₁.filter (fun r => c < r.1)).isEmpty then cleanupOldEntries rest c
        else (k₁, recs₁.filter (fun r => c < r.1)) :: cleanupOldEntries rest c := by
      cases hE : (recs₁.filter (fun r => c < r.1)).isEmpty <;>
        simp [cleanupOldEntries, List.filter_cons, hE]
    by_cases hk : k₁ = k
    · subst hk
      cases hE : (recs₁.filter (fun r => c < r.1)).isEmpty with
      | true =>
        rw [hstep, if_pos hE]
        have hnone : alistGet (cleanupOldEntries rest c) k₁ =
            none :=
          alistGet_eq_none_of_not_mem
            (fun hm => hnd.1 ((cleanup_keys_sublist rest c).subset hm))
        simp [alistGet, hnone, hE]
      | false =>
        rw [hstep, if_neg (by simp [hE])]
        simp [alistGet, hE]
    · cases hE : (recs₁.filter (fun r => c < r.1)).isEmpty with
      | true =>
        rw [hstep, if_pos hE]
        rw [ih hnd.2]
        simp [alistGet, hk]
      | false =>
        rw [hstep, if_neg (by simp [hE])]
        simp only [alistGet, if_neg hk, ih hnd.2]

/-! ### Invariant lemmas for a single key's history -/

theorem sumCounts_map_one (hs : List Int) :
    sumCounts (hs.map (fun t => (t, (1 : Int)))) = hs.length := by
  induction hs with
  | nil => rfl
  | cons t ts ih =>
    simp only [List.map_cons, sumCounts, List.sum_cons, List.length_cons] at ih ⊢
    omega

theorem filter_keeps_recent {hs : List Int} {now window : Int}
    (hkeep : ∀ t ∈ hs, now - t < window) :
    (hs.map (fun t => (t, (1 : Int)))).filter (fun r => now - r.1 < window)
      = hs.map (fun t => (t, (1 : Int))) := by
  apply List.filter_eq_self.mpr
  intro a ha
  simp only [List.mem_map] at ha
  obtain ⟨t, ht, rfl⟩ := ha
  simpa using hkeep t ht

theorem filter_keeps_cutoff {hs : List Int} {now window : Int}
    (hkeep : ∀ t ∈ hs, now - t < window) :
    (hs.map (fun t => (t, (1 : Int)))).filter (fun r => now - window < r.1)
      = hs.map (fun t => (t, (1 : Int))) := by
  apply List.filter_eq_self.mpr
  intro a ha
  simp only [List.mem_map] at ha
  obtain ⟨t, ht, rfl⟩ := ha
  have := hkeep t ht
  simp only [decide_eq_true_eq]
  omega

theorem nodup_afterCleanup {st : LimiterState} {window now : Int}
    (hnd : (st.requests.map Prod.fst).Nodup) :
    ((afterCleanup st window now).requests.map Prod.fst).Nodup := by
  unfold afterCleanup
  split
  · exact nodup_cleanup hnd
  · exact hnd

theorem survivors_of_inv {st : LimiterState} {key : String} {window now : Int} {hs : List Int}
    (hnd : (st.requests.map Prod.fst).Nodup)
    (hget : (alistGet st.requests key).getD [] = hs.map (fun t => (t, (1 : Int))))
    (hkeep : ∀ t ∈ hs, now - t < window) :
    survivors st key window now = hs.map (fun t => (t, (1 : Int))) := by
  unfold survivors afterCleanup
  by_cases hcl : cleanupInterval < now - st.lastCleanup
  · simp only [hcl, if_true]
    rw [alistGet_cleanup hnd]
    cases hA : alistGet st.requests key with
    | none =>
      rw [hA] at hget
      simp only [Option.getD_none] at hget
      have hhs : hs = [] := by
        cases hs with
        | nil => rfl
        | cons a l => simp at hget
      subst hhs
      simp
    | some recs =>
      rw [hA] at hget
      simp only [Option.getD_some] at hget
      subst hget
      simp only [Option.some_bind]
      rw [filter_keeps_cutoff hkeep]
      by_cases hE : hs = []
      · subst hE; simp
      · have hne : (hs.map (fun t => (t, (1:Int)))).isEmpty = false := by
          cases hs with
          | nil => exact absurd rfl hE
          | cons a l => rfl
        simp only [hne, Bool.false_eq_true, if_false, Option.getD_some]
        exact filter_keeps_recent hkeep
  · simp only [hcl, if_false]
    rw [hget]
    exact filter_keeps_recent hkeep

theorem nodup_is_allowed {st : LimiterState} {key : String} {limit window now : Int}
    (hnd : (st.requests.map Prod.fst).Nodup) :
    ((is_allowed st key limit window now).2.2.requests.map Prod.fst).Nodup := by
  have h1 : ((afterCleanup st window now).requests.map Prod.fst).Nodup :=
    nodup_afterCleanup hnd
  unfold is_allowed
  split
  · exact nodup_alistSet h1
  · exact nodup_alistSet h1

/-- An allowed step from a key whose stored (and surviving) history is
`hs.map (t, 1)` with `hs.length < limit`: the call succeeds and the stored
history becomes `(hs ++ [now]).map (t, 1)`. -/
theorem is_allowed_step_allow {st : LimiterState} {key : String} {limit window now : Int}
    {hs : List Int}
    (hnd : (st.requests.map Prod.fst).Nodup)
    (hget : (alistGet st.requests key).getD [] = hs.map (fun t => (t, (1 : Int))))
    (hkeep : ∀ t ∈ hs, now - t < window)
    (hcount : (hs.length : Int) < limit) :
    (is_allowed st key limit window now).1 = true ∧
    (alistGet (is_allowed st key limit window now).2.2.requests key).getD []
      = ((hs ++ [now]).map (fun t => (t, (1 : Int)))) := by
  have hsur := survivors_of_inv hnd hget hkeep
  have hcur : sumCounts (survivors st key window now) = (hs.length : Int) := by
    rw [hsur]; exact sumCounts_map_one hs
  have hcond : ¬ (limit ≤ sumCounts (survivors st key window now)) := by
    rw [hcur]; omega
  unfold is_allowed
  rw [if_neg hcond]
  refine ⟨rfl, ?_⟩
  show (alistGet (alistSet (afterCleanup st window now).requests key
      (survivors st key window now ++ [(now, 1)])) key).getD []
    = (hs ++ [now]).map (fun t => (t, (1 : Int)))
  rw [alistGet_set_self, Option.getD_some, hsur, List.map_append]
  simp

/-- A denied step: when the surviving history already carries `limit` or more
requests, the call is denied. -/
theorem is_allowed_step_deny {st : LimiterState} {key : String} {limit window now : Int}
    {hs : List Int}
    (hnd : (st.requests.map Prod.fst).Nodup)
    (hget : (alistGet st.requests key).getD [] = hs.map (fun t => (t, (1 : Int))))
    (hkeep : ∀ t ∈ hs, now - t < window)
    (hcount : limit ≤ (hs.length : Int)) :
    (is_allowed st key limit window now).1 = false := by
  have hsur := survivors_of_inv hnd hget hkeep
  have hcur : sumCounts (survivors st key window now) = (hs.length : Int) := by
    rw [hsur]; exact sumCounts_map_one hs
  have hcond : limit ≤ sumCounts (survivors st key window now) := by
    rw [hcur]; omega
  unfold is_allowed
  rw [if_pos hcond]

/-- Main induction for claim C1: starting from a state whose stored history for
`key` is `hs` (all arrivals at or after `t0`), running the remaining calls (all
inside `[t0, t0 + window)`) allows each call until the count reaches `n` and
denies the final one. -/
theorem runSeq_fresh_aux (n : Nat) (window t0 : Int) (key : String) :
    ∀ (ts : List Int) (st : LimiterState) (hs : List Int),
      (st.requests.map Prod.fst).Nodup →
      (alistGet st.requests key).getD [] = hs.map (fun t => (t, (1 : Int))) →
      (∀ h ∈ hs, t0 ≤ h) →
      (∀ t ∈ ts, t0 ≤ t ∧ t - t0 < window) →
      hs.length + ts.length = n + 1 →
      hs.length ≤ n →
      (runSeq st key (n : Int) window ts).1
        = List.replicate (n - hs.length) true ++ [false] := by
  intro ts
  induction ts with
  | nil =>
    intro st hs _ _ _ _ hlen hle
    simp only [List.length_nil] at hlen
    omega
  | cons t ts2 ih =>
    intro st hs hnd hget hhs hts hlen hle
    have ht0 : t0 ≤ t := (hts t (List.mem_cons_self _ _)).1
    have htw : t - t0 < window := (hts t (List.mem_cons_self _ _)).2
    have hkeep : ∀ h ∈ hs, t - h < window := by
      intro h hh
      have := hhs h hh
      omega
    by_cases hfull : hs.length = n
    · have hdeny := @is_allowed_step_deny st key ((n : Nat) : Int) window t hs hnd hget hkeep
        (by rw [hfull])
      have hts2 : ts2 = [] := by
        simp only [List.length_cons] at hlen
        have h0 : ts2.length = 0 := by omega
        exact List.length_eq_zero.mp h0
      subst hts2
      simp [runSeq, hdeny, hfull]
    · have hlt : ((hs.length : Int)) < ((n : Nat) : Int) := by omega
      obtain ⟨hallow, hget2⟩ :=
        @is_allowed_step_allow st key ((n : Nat) : Int) window t hs hnd hget hkeep hlt
      have hnd2 := @nodup_is_allowed st key ((n : Nat) : Int) window t hnd
      have hrec := ih (is_allowed st key (n : Int) window t).2.2 (hs ++ [t]) hnd2 hget2
        (by
          intro h hh
          rcases List.mem_append.mp hh with h1 | h2
          · exact hhs h h1
          · simp only [List.mem_singleton] at h2
            omega)
        (fun t2 ht2 => hts t2 (List.mem_cons_of_mem _ ht2))
        (by simp only [List.length_append, List.length_cons, List.length_nil]
              at hlen ⊢; omega)
        (by simp only [List.length_append, List.length_cons, List.length_nil]; omega)
      simp only [runSeq]
      rw [hallow, hrec]
      have hstep : n - hs.length = (n - (hs ++ [t]).length) + 1 := by
        simp only [List.length_append, List.length_cons, List.length_nil]
        omega
      rw [hstep, List.replicate_succ]
      simp

/-- Claim C1: for every positive limit and positive window, starting from a fresh
key with no stored history, a sequence of `limit` calls to
`is_allowed(key, limit, window)` issued within `window` seconds are all allowed,
and the `(limit+1)`-th call within that same window is denied. -/
theorem fresh_key_limit_calls_then_denied (st : LimiterState) (key : String) (n : Nat)
    (window t0 : Int) (ts : List Int)
    (hn : 0 < n) (hw : 0 < window)
    (hnd : (st.requests.map Prod.fst).Nodup)
    (hfresh : alistGet st.requests key = none)
    (hlen : ts.length = n + 1)
    (hts : ∀ t ∈ ts, t0 ≤ t ∧ t - t0 < window) :
    (runSeq st key (n : Int) window ts).1 = List.replicate n true ++ [false] := by
  have h := runSeq_fresh_aux n window t0 key ts st [] hnd (by simp [hfresh]) (by simp)
    hts (by simp [hlen]) (by simp)
  simpa using h

/-- Witness for C1 at `limit = 2`, `window = 10`, calls at times 0, 1, 2. -/
theorem fresh_key_limit_calls_then_denied_witness :
    (runSeq ⟨[], 0⟩ "user:42" ((2 : Nat) : Int) 10 [0, 1, 2]).1
      = List.replicate 2 true ++ [false] :=
  fresh_key_limit_calls_then_denied ⟨[], 0⟩ "user:42" 2 10 0 [0, 1, 2]
    (by decide) (by decide) (by simp) rfl (by decide) (by decide)

/-! ### Denial and allowance decision fields (claims C2, C3) -/

/-- The earliest surviving record's timestamp (defaulting to `now` for an empty
history, mirroring the denial branch's defensive default). -/
def earliestTimestamp (hist : List Record) (now : Int) : Int :=
  match hist.map (fun r => r.1) with
  | [] => now
  | x :: xs => xs.foldl min x

theorem foldl_min_add (xs : List Int) (x w : Int) :
    (xs.map (fun y => y + w)).foldl min (x + w) = xs.foldl min x + w := by
  induction xs generalizing x with
  | nil => rfl
  | cons y ys ih =>
    simp only [List.map_cons, List.foldl_cons]
    rw [← ih (min x y)]
    congr 1
    omega

theorem foldl_min_lt (xs : List Int) (x c : Int) (hx : c < x) (hxs : ∀ y ∈ xs, c < y) :
    c < xs.foldl min x := by
  induction xs generalizing x with
  | nil => exact hx
  | cons y ys ih =>
    simp only [List.foldl_cons]
    have hy : c < y := hxs y (List.mem_cons_self _ _)
    exact ih (min x y) (lt_min hx hy) (fun z hz => hxs z (List.mem_cons_of_mem _ hz))

theorem minResetTime_eq_earliest_add {hist : List Record} {window now : Int}
    (h : hist ≠ []) :
    minResetTime hist window now = earliestTimestamp hist now + window := by
  cases hist with
  | nil => exact absurd rfl h
  | cons p rest =>
    unfold minResetTime earliestTimestamp
    simp only [List.map_cons]
    have hcomp : rest.map (fun r => r.1 + window)
        = (rest.map (fun r => r.1)).map (fun y => y + window) := by
      rw [List.map_map]
      rfl
    rw [hcomp]
    exact foldl_min_add (rest.map (fun r => r.1)) p.1 window

theorem now_lt_minResetTime {hist : List Record} {window now : Int}
    (h : hist ≠ []) (hrec : ∀ r ∈ hist, now - r.1 < window) :
    now < minResetTime hist window now := by
  cases hist with
  | nil => exact absurd rfl h
  | cons p rest =>
    unfold minResetTime
    simp only [List.map_cons]
    apply foldl_min_lt
    · have := hrec p (List.mem_cons_self _ _)
      omega
    · intro y hy
      rcases List.mem_map.mp hy with ⟨r, hr, rfl⟩
      have := hrec r (List.mem_cons_of_mem _ hr)
      omega

/-- Every record surviving the in-check prune is inside the window. -/
theorem survivors_recent (st : LimiterState) (key : String) (window now : Int) :
    ∀ r ∈ survivors st key window now, now - r.1 < window := by
  intro r hr
  unfold survivors at hr
  have := (List.mem_filter.mp hr).2
  simpa using this

/-- Claim C2: for every denied check, `reset_time` equals the earliest surviving
record's timestamp plus the window (or `now` if no record survives pruning),
`retry_after` equals `reset_time - now` floored at 0, and consequently every
denied decision has `retry_after ≥ 0` and `reset_time ≥ now`. -/
theorem denied_decision_reset_and_retry (st : LimiterState) (key : String)
    (limit window now : Int)
    (hdeny : (is_allowed st key limit window now).1 = false) :
    (is_allowed st key limit window now).2.1.resetTime
      = (if survivors st key window now = [] then now
         else earliestTimestamp (survivors st key window now) now + window) ∧
    (is_allowed st key limit window now).2.1.retryAfter
      = some (max ((is_allowed st key limit window now).2.1.resetTime - now) 0) ∧
    (∀ ra, (is_allowed st key limit window now).2.1.retryAfter = some ra → 0 ≤ ra) ∧
    now ≤ (is_allowed st key limit window now).2.1.resetTime := by
  have hcond : limit ≤ sumCounts (survivors st key window now) := by
    by_contra hc
    unfold is_allowed at hdeny
    rw [if_neg hc] at hdeny
    simp at hdeny
  unfold is_allowed
  rw [if_pos hcond]
  by_cases hE : survivors st key window now = []
  · refine ⟨?_, ?_, ?_, ?_⟩
    · simp [hE, minResetTime]
    · simp [hE, minResetTime]
    · intro ra hra
      simp [hE] at hra
      omega
    · simp [hE, minResetTime]
  · have hlt : now < minResetTime (survivors st key window now) window now :=
      now_lt_minResetTime hE (survivors_recent st key window now)
    have hne : (survivors st key window now).isEmpty = false := by
      cases h : survivors st key window now with
      | nil => exact absurd h hE
      | cons a l => rfl
    refine ⟨?_, ?_, ?_, ?_⟩
    · simp only [hE, if_false]
      exact minResetTime_eq_earliest_add hE
    · simp only [hne, Bool.false_eq_true, if_false]
      congr 1
      omega
    · intro ra hra
      simp only [hne, Bool.false_eq_true, if_false, Option.some.injEq] at hra
      omega
    · show now ≤ minResetTime (survivors st key window now) window now
      omega

/-- Witness for C2: key `"k"` with one record at time 5, `limit = 1`,
`window = 10`, checked at time 6 — denied with `reset_time = 15`,
`retry_after = 9`. -/
theorem denied_decision_reset_and_retry_witness :
    (is_allowed ⟨[("k", [(5, 1)])], 6⟩ "k" 1 10 6).2.1.resetTime
      = (if survivors ⟨[("k", [(5, 1)])], 6⟩ "k" 10 6 = [] then 6
         else earliestTimestamp (survivors ⟨[("k", [(5, 1)])], 6⟩ "k" 10 6) 6 + 10) ∧
    (is_allowed ⟨[("k", [(5, 1)])], 6⟩ "k" 1 10 6).2.1.retryAfter
      = some (max ((is_allowed ⟨[("k", [(5, 1)])], 6⟩ "k" 1 10 6).2.1.resetTime - 6) 0) ∧
    (∀ ra, (is_allowed ⟨[("k", [(5, 1)])], 6⟩ "k" 1 10 6).2.1.retryAfter = some ra →
      0 ≤ ra) ∧
    (6 : Int) ≤ (is_allowed ⟨[("k", [(5, 1)])], 6⟩ "k" 1 10 6).2.1.resetTime :=
  denied_decision_reset_and_retry ⟨[("k", [(5, 1)])], 6⟩ "k" 1 10 6 (by decide)

/-- Claim C3: for every allowed check, a new arrival record `(now, 1)` is appended
to the key's stored history, and the decision reports
`remaining = limit - currentUsage - 1` (never negative),
`current = currentUsage + 1` and `reset_time = now + window`. -/
theorem allowed_decision_appends_record (st : LimiterState) (key : String)
    (limit window now : Int)
    (hallow : (is_allowed st key limit window now).1 = true) :
    alistGet (is_allowed st key limit window now).2.2.requests key
      = some (survivors st key window now ++ [(now, 1)]) ∧
    (is_allowed st key limit window now).2.1.remaining
      = some (limit - sumCounts (survivors st key window now) - 1) ∧
    (∀ rem, (is_allowed st key limit window now).2.1.remaining = some rem → 0 ≤ rem) ∧
    (is_allowed st key limit window now).2.1.current
      = sumCounts (survivors st key window now) + 1 ∧
    (is_allowed st key limit window now).2.1.resetTime = now + window := by
  have hcond : ¬ (limit ≤ sumCounts (survivors st key window now)) := by
    by_contra hc
    unfold is_allowed at hallow
    rw [if_pos hc] at hallow
    simp at hallow
  unfold is_allowed
  rw [if_neg hcond]
  refine ⟨alistGet_set_self _ _ _, rfl, ?_, rfl, rfl⟩
  intro rem hrem
  simp only [Option.some.injEq] at hrem
  omega

/-- Witness for C3: first call on a fresh limiter, `limit = 5`, `window = 10`,
time 0 — allowed with `remaining = 4`, `current = 1`, `reset_time = 10`. -/
theorem allowed_decision_appends_record_witness :
    alistGet (is_allowed ⟨[], 0⟩ "k" 5 10 0).2.2.requests "k"
      = some (survivors ⟨[], 0⟩ "k" 10 0 ++ [(0, 1)]) ∧
    (is_allowed ⟨[], 0⟩ "k" 5 10 0).2.1.remaining
      = some (5 - sumCounts (survivors ⟨[], 0⟩ "k" 10 0) - 1) ∧
    (∀ rem, (is_allowed ⟨[], 0⟩ "k" 5 10 0).2.1.remaining = some rem → 0 ≤ rem) ∧
    (is_allowed ⟨[], 0⟩ "k" 5 10 0).2.1.current
      = sumCounts (survivors ⟨[], 0⟩ "k" 10 0) + 1 ∧
    (is_allowed ⟨[], 0⟩ "k" 5 10 0).2.1.resetTime = 0 + 10 :=
  allowed_decision_appends_record ⟨[], 0⟩ "k" 5 10 0 (by decide)

/-! ### Request-level middleware (`setup_rate_limiting` helpers) -/

/-- The authenticated principal (`g.current_user`): identifier and role list.
`none` models both an absent and a falsy (empty) `current_user`. -/
structure UserCtx where
  id : String
  roles : List String
  deriving Repr, DecidableEq

/-- A rate-limit configuration dict `{'limit': ..., 'window': ...}`. -/
structure RateConfig where
  limit : Int
  window : Int
  deriving Repr, DecidableEq

/-- The per-request data the middleware reads from Flask's `request`/`g`/config.
`userAgent` is `request.headers.get('User-Agent', '')` (absent header = `""`). -/
structure RequestCtx where
  endpoint : Option String
  method : String
  userAgent : String
  remoteAddr : String
  xForwardedFor : Option String
  currentUser : Option UserCtx
  appLimits : List (String × RateConfig)
  deriving Repr, DecidableEq

/-- The module's `default_limits`: 100 requests per 3600 seconds. -/
def defaultLimits : RateConfig := { limit := 100, window := 3600 }

/-- The monitoring user-agent substrings `['monitor', 'health-check', 'uptime']`. -/
def monitoringAgents : List String := ["monitor", "health-check", "uptime"]

/-- Python's substring test `pat in s`, over the character list. -/
def strContains (s pat : String) : Bool :=
  decide (pat.toList <:+: s.toList)

/-- Python's `s.lower()`, over the character list. -/
def pyLower (s : String) : String :=
  String.mk (s.toList.map Char.toLower)

/-- Python's `s.startswith(pre)`, over the character list. -/
def pyStartsWith (s pre : String) : Bool :=
  decide (pre.toList <+: s.toList)

/-- Helper for `pySplit`: split a character list on a separator; Python's
`str.split(sep)` semantics (an empty string yields `[""]`). -/
def splitChars (sep : Char) : List Char → List (List Char)
  | [] => [[]]
  | c :: rest =>
    let r := splitChars sep rest
    if c = sep then [] :: r
    else
      match r with
      | [] => [[c]]
      | g :: gs => (c :: g) :: gs

/-- Python's `s.split(sep)` for a one-character separator. -/
def pySplit (s : String) (sep : Char) : List String :=
  (splitChars sep s.toList).map String.mk

/-- Python's `s.strip()`: drop whitespace from both ends. -/
def pyStrip (s : String) : String :=
  String.mk (((s.toList.dropWhile Char.isWhitespace).reverse.dropWhile
    Char.isWhitespace).reverse)

/-- `should_skip_rate_limiting()`: health/home endpoints, static routes, and
monitoring user agents (matched against the lowercased User-Agent) are exempt. -/
def shouldSkipRateLimiting (req : RequestCtx) : Bool :=
  if req.endpoint = some "health" ∨ req.endpoint = some "home" then true
  else if (match req.endpoint with
           | some e => pyStartsWith e "static"
           | none => false) then true
  else if monitoringAgents.any (fun b => strContains (pyLower req.userAgent) b) then true
  else false

/-- `get_rate_limit_config()`: endpoint override, then method override, then
role-refined authenticated/unauthenticated defaults, then the global default.
The `if endpoint and ...` truthiness guard makes an empty endpoint string skip
the endpoint lookup. -/
def getRateLimitConfig (req : RequestCtx) : RateConfig :=
  match (match req.endpoint with
         | some e => if e ≠ "" then alistGet req.appLimits e else none
         | none => none) with
  | some c => c
  | none =>
    match alistGet req.appLimits ("method_" ++ pyLower req.method) with
    | some c => c
    | none =>
      match req.currentUser with
      | some u =>
        if u.roles.contains "admin" && (alistGet req.appLimits "admin").isSome then
          (alistGet req.appLimits "admin").getD defaultLimits
        else if u.roles.contains "premium" && (alistGet req.appLimits "premium").isSome then
          (alistGet req.appLimits "premium").getD defaultLimits
        else (alistGet req.appLimits "authenticated").getD defaultLimits
      | none => (alistGet req.appLimits "unauthenticated").getD defaultLimits

/-- `generate_rate_limit_key()`: `user:<id>` for an authenticated principal, else
`ip:<addr>` where a truthy (nonempty) X-Forwarded-For header replaces the peer
address with its first comma-separated entry, stripped. -/
def generateRateLimitKey (req : RequestCtx) : String :=
  match req.currentUser with
  | some u => "user:" ++ u.id
  | none =>
    match req.xForwardedFor with
    | some s => if s ≠ "" then "ip:" ++ pyStrip ((pySplit s ',').headD "")
                else "ip:" ++ req.remoteAddr
    | none => "ip:" ++ req.remoteAddr

/-- Modelled from the spec's key-derivation policy exactly as worded: prefer the
principal-derived key; within address-derived keys prefer the forwarded-for
header's first entry over the raw peer address whenever the header is present. -/
def specRateLimitKey (req : RequestCtx) : String :=
  match req.currentUser with
  | some u => "user:" ++ u.id
  | none =>
    match req.xForwardedFor with
    | some s => "ip:" ++ pyStrip ((pySplit s ',').headD "")
    | none => "ip:" ++ req.remoteAddr

/-- A JSON scalar as used in the 429 body. -/
inductive JsonVal where
  | str : String → JsonVal
  | int : Int → JsonVal
  deriving Repr, DecidableEq

/-- An HTTP response: status code, JSON body fields, headers. -/
structure HttpResponse where
  status : Int
  body : List (String × JsonVal)
  headers : List (String × String)
  deriving Repr, DecidableEq

/-- The 429 response built by `check_rate_limit` from the denial `info`. -/
def rateLimitResponse (info : RateInfo) : HttpResponse :=
  { status := 429
    body := [("error", JsonVal.str "Rate limit exceeded"),
             ("message", JsonVal.str ("Too many requests. Limit: " ++ toString info.limit
               ++ " per " ++ toString info.window ++ " seconds")),
             ("limit", JsonVal.int info.limit),
             ("window", JsonVal.int info.window),
             ("current", JsonVal.int info.current),
             ("retry_after", JsonVal.int (info.retryAfter.getD 0))]
    headers := [("X-RateLimit-Limit", toString info.limit),
                ("X-RateLimit-Remaining", "0"),
                ("X-RateLimit-Reset", toString info.resetTime),
                ("Retry-After", toString (info.retryAfter.getD 0))] }

/-- The `check_rate_limit` before-request hook (exception-free path): skip check,
config lookup, key derivation, limiter check, and the 429 short-circuit.
`none` means the request proceeds. -/
def checkRateLimit (req : RequestCtx) (st : LimiterState) (now : Int) :
    Option HttpResponse × LimiterState :=
  if shouldSkipRateLimiting req then (none, st)
  else
    let cfg := getRateLimitConfig req
    let r := is_allowed st (generateRateLimitKey req) cfg.limit cfg.window now
    if r.1 then (none, r.2.2) else (some (rateLimitResponse r.2.1), r.2.2)

/-- The body of `check_rate_limit`'s `try:` block, with each step allowed to
raise (modelled as `Except.error`): skip determination, config lookup, key
derivation, and the limiter call itself. -/
def checkRateLimitBody (skipR : Except String Bool) (cfgR : Except String RateConfig)
    (keyR : Except String String)
    (limiter : String → RateConfig → Except String (Bool × RateInfo × LimiterState))
    (st : LimiterState) : Except String (Option HttpResponse × LimiterState) := do
  let skip ← skipR
  if skip then return (none, st)
  let cfg ← cfgR
  let key ← keyR
  let r ← limiter key cfg
  if r.1 then return (none, r.2.2)
  else return (some (rateLimitResponse r.2.1), r.2.2)

/-- `check_rate_limit` with its `except Exception: pass` handler: a raised
exception leaves the request unblocked (fail-open) with the limiter state as it
was at entry. -/
def checkRateLimitGuarded (skipR : Except String Bool) (cfgR : Except String RateConfig)
    (keyR : Except String String)
    (limiter : String → RateConfig → Except String (Bool × RateInfo × LimiterState))
    (st : LimiterState) : Option HttpResponse × LimiterState :=
  match checkRateLimitBody skipR cfgR keyR limiter st with
  | Except.ok r => r
  | Except.error _ => (none, st)

/-- The `after_request` hook of the logging middleware: always sets
`X-Request-ID` (defaulting to "unknown"), and sets `X-Response-Time` only when a
start timestamp was recorded and the computed elapsed time is truthy (nonzero).
Elapsed time is `(now - start) * 1000` milliseconds. -/
def afterRequest (requestId : Option String) (startTime : Option Int) (now : Int)
    (resp : HttpResponse) : HttpResponse :=
  let responseTime : Option Int :=
    match startTime with
    | some s => some ((now - s) * 1000)
    | none => none
  let rid := match requestId with
    | some r => r
    | none => "unknown"
  let h1 := alistSet resp.headers "X-Request-ID" rid
  let h2 := match responseTime with
    | some rt => if rt ≠ 0 then alistSet h1 "X-Response-Time" (toString rt ++ "ms") else h1
    | none => h1
  { resp with headers := h2 }

/-- Modelled from the spec's configuration resolution order exactly as worded:
per-endpoint entry, else per-HTTP-method entry, else (for authenticated users)
the admin override when the user has role admin, else the premium override when
the user has role premium, else the authenticated default, else (for anonymous
users) the unauthenticated default, else the global default of 100 per 3600. -/
def specResolveConfig (req : RequestCtx) : RateConfig :=
  match req.endpoint.bind (fun e => alistGet req.appLimits e) with
  | some c => c
  | none =>
    match alistGet req.appLimits ("method_" ++ pyLower req.method) with
    | some c => c
    | none =>
      match req.currentUser with
      | some u =>
        match (if u.roles.contains "admin" then alistGet req.appLimits "admin"
               else none) with
        | some c => c
        | none =>
          match (if u.roles.contains "premium" then alistGet req.appLimits "premium"
                 else none) with
          | some c => c
          | none => (alistGet req.appLimits "authenticated").getD { limit := 100, window := 3600 }
      | none => (alistGet req.appLimits "unauthenticated").getD { limit := 100, window := 3600 }

/-- The spec's exemption conditions as a predicate: health/home endpoint,
static-asset route, or a monitoring agent substring (case-insensitively) in the
User-Agent. -/
def isExemptSpec (req : RequestCtx) : Prop :=
  req.endpoint = some "health" ∨ req.endpoint = some "home" ∨
  (∃ e, req.endpoint = some e ∧ pyStartsWith e "static" = true) ∨
  (∃ b ∈ monitoringAgents, strContains (pyLower req.userAgent) b = true)

/-! ### Claim theorems C4, C5, C7, C8 -/

/-- Claim C4: every rate-limit denial produces an HTTP 429 response whose JSON
body contains `error = "Rate limit exceeded"`, `message`, `limit`, `window`,
`current` and `retry_after`, and whose headers include `X-RateLimit-Limit`,
`X-RateLimit-Remaining = "0"`, `X-RateLimit-Reset` and `Retry-After`; no denial
is silent. -/
theorem denial_emits_structured_429 (req : RequestCtx) (st : LimiterState) (now : Int)
    (hskip : shouldSkipRateLimiting req = false)
    (hdeny : (is_allowed st (generateRateLimitKey req) (getRateLimitConfig req).limit
      (getRateLimitConfig req).window now).1 = false) :
    ∃ resp, (checkRateLimit req st now).1 = some resp ∧
      resp.status = 429 ∧
      alistGet resp.body "error" = some (JsonVal.str "Rate limit exceeded") ∧
      (∃ m, alistGet resp.body "message" = some (JsonVal.str m)) ∧
      (∃ l, alistGet resp.body "limit" = some (JsonVal.int l)) ∧
      (∃ w, alistGet resp.body "window" = some (JsonVal.int w)) ∧
      (∃ c, alistGet resp.body "current" = some (JsonVal.int c)) ∧
      (∃ ra, alistGet resp.body "retry_after" = some (JsonVal.int ra)) ∧
      (∃ v, alistGet resp.headers "X-RateLimit-Limit" = some v) ∧
      alistGet resp.headers "X-RateLimit-Remaining" = some "0" ∧
      (∃ v, alistGet resp.headers "X-RateLimit-Reset" = some v) ∧
      (∃ v, alistGet resp.headers "Retry-After" = some v) := by
  have hmain : (checkRateLimit req st now).1
      = some (rateLimitResponse (is_allowed st (generateRateLimitKey req)
          (getRateLimitConfig req).limit (getRateLimitConfig req).window now).2.1) := by
    simp [checkRateLimit, hskip, hdeny]
  exact ⟨_, hmain, rfl, rfl, ⟨_, rfl⟩, ⟨_, rfl⟩, ⟨_, rfl⟩, ⟨_, rfl⟩, ⟨_, rfl⟩,
    ⟨_, rfl⟩, rfl, ⟨_, rfl⟩, ⟨_, rfl⟩⟩

/-- Concrete request used by the C4 witness: a plain GET whose endpoint carries a
zero-allowance override, so the very first check is denied. -/
def reqDenied : RequestCtx :=
  { endpoint := some "api.orders", method := "GET", userAgent := "curl/8.0"
    remoteAddr := "1.2.3.4", xForwardedFor := none, currentUser := none
    appLimits := [("api.orders", { limit := 0, window := 10 })] }

/-- Witness for C4: the zero-limit endpoint denies the first request with a full
structured 429. -/
theorem denial_emits_structured_429_witness :
    ∃ resp, (checkRateLimit reqDenied ⟨[], 0⟩ 5).1 = some resp ∧
      resp.status = 429 ∧
      alistGet resp.body "error" = some (JsonVal.str "Rate limit exceeded") ∧
      (∃ m, alistGet resp.body "message" = some (JsonVal.str m)) ∧
      (∃ l, alistGet resp.body "limit" = some (JsonVal.int l)) ∧
      (∃ w, alistGet resp.body "window" = some (JsonVal.int w)) ∧
      (∃ c, alistGet resp.body "current" = some (JsonVal.int c)) ∧
      (∃ ra, alistGet resp.body "retry_after" = some (JsonVal.int ra)) ∧
      (∃ v, alistGet resp.headers "X-RateLimit-Limit" = some v) ∧
      alistGet resp.headers "X-RateLimit-Remaining" = some "0" ∧
      (∃ v, alistGet resp.headers "X-RateLimit-Reset" = some v) ∧
      (∃ v, alistGet resp.headers "Retry-After" = some v) :=
  denial_emits_structured_429 reqDenied ⟨[], 0⟩ 5 (by decide) (by decide)

/-- Claim C5: if any step inside the rate-limit check raises, the request is not
blocked — the `except` handler swallows the failure and the request proceeds as
if allowed, with the limiter state untouched. -/
theorem limiter_failure_fails_open (skipR : Except String Bool)
    (cfgR : Except String RateConfig) (keyR : Except String String)
    (limiter : String → RateConfig → Except String (Bool × RateInfo × LimiterState))
    (st : LimiterState) (e : String)
    (hraise : checkRateLimitBody skipR cfgR keyR limiter st = Except.error e) :
    checkRateLimitGuarded skipR cfgR keyR limiter st = (none, st) := by
  unfold checkRateLimitGuarded
  rw [hraise]

/-- Witness for C5: a skip-determination step that raises leaves the request
unblocked. -/
theorem limiter_failure_fails_open_witness :
    checkRateLimitGuarded (Except.error "boom") (Except.ok defaultLimits)
      (Except.ok "k") (fun _ _ => Except.error "limiter broken") ⟨[], 0⟩
      = (none, ⟨[], 0⟩) :=
  limiter_failure_fails_open (Except.error "boom") (Except.ok defaultLimits)
    (Except.ok "k") (fun _ _ => Except.error "limiter broken") ⟨[], 0⟩ "boom" rfl

/-- Claim C7: rate-limit configuration resolution is first-match-wins in the
order endpoint override, method override, admin override, premium override,
authenticated default, unauthenticated default, global default (100 / 3600),
as long as the endpoint is not the degenerate empty string (which Python's
truthiness check skips). -/
theorem config_resolution_first_match (req : RequestCtx)
    (hne : req.endpoint ≠ some "") :
    getRateLimitConfig req = specResolveConfig req := by
  unfold getRateLimitConfig specResolveConfig
  have hep : (match req.endpoint with
              | some e => if e ≠ "" then alistGet req.appLimits e else none
              | none => none)
      = req.endpoint.bind (fun e => alistGet req.appLimits e) := by
    cases hE : req.endpoint with
    | none => rfl
    | some e =>
      have he : e ≠ "" := by
        intro h
        exact hne (by rw [hE, h])
      simp [he]
  rw [hep]
  cases req.endpoint.bind (fun e => alistGet req.appLimits e) with
  | some c => rfl
  | none =>
    cases alistGet req.appLimits ("method_" ++ pyLower req.method) with
    | some c => rfl
    | none =>
      cases req.currentUser with
      | none => rfl
      | some u =>
        by_cases hadm : ("admin" ∈ u.roles) <;>
          cases hA : alistGet req.appLimits "admin" <;>
            by_cases hprem : ("premium" ∈ u.roles) <;>
              cases hP : alistGet req.appLimits "premium" <;>
                simp [hadm, hA, hprem, hP, defaultLimits]

/-- Witness for C7: an authenticated admin resolves to the admin-specific
config under both the code and the spec ordering. -/
theorem config_resolution_first_match_witness :
    getRateLimitConfig
      { endpoint := some "api.orders", method := "GET", userAgent := "curl/8.0"
        remoteAddr := "1.2.3.4", xForwardedFor := none
        currentUser := some { id := "u1", roles := ["admin"] }
        appLimits := [("admin", { limit := 10, window := 60 })] }
      = specResolveConfig
      { endpoint := some "api.orders", method := "GET", userAgent := "curl/8.0"
        remoteAddr := "1.2.3.4", xForwardedFor := none
        currentUser := some { id := "u1", roles := ["admin"] }
        appLimits := [("admin", { limit := 10, window := 60 })] } :=
  config_resolution_first_match _ (by decide)

/-- Claim C8: requests to the health or home endpoints, static-asset routes, or
with a monitoring User-Agent substring bypass rate limiting entirely — the check
returns no response and leaves the limiter state untouched, so no limiter state
is read or mutated. -/
theorem exempt_requests_bypass_limiter (req : RequestCtx) (st : LimiterState)
    (now : Int) (hex : isExemptSpec req) :
    checkRateLimit req st now = (none, st) := by
  have hskip : shouldSkipRateLimiting req = true := by
    unfold shouldSkipRateLimiting
    by_cases h1 : (req.endpoint = some "health" ∨ req.endpoint = some "home")
    · simp [h1]
    · by_cases h2 : (match req.endpoint with
                     | some e => pyStartsWith e "static"
                     | none => false) = true
      · simp [h1, h2]
      · by_cases h3 : (monitoringAgents.any
            (fun b => strContains (pyLower req.userAgent) b)) = true
        · simp [h1, h2, h3]
        · exfalso
          rcases hex with h | h | ⟨e, he, hs⟩ | ⟨b, hb, hc⟩
          · exact h1 (Or.inl h)
          · exact h1 (Or.inr h)
          · exact h2 (by rw [he]; exact hs)
          · exact h3 (List.any_eq_true.mpr ⟨b, hb, hc⟩)
  unfold checkRateLimit
  rw [if_pos hskip]

/-- Witness for C8: a health-check request bypasses the limiter. -/
theorem exempt_requests_bypass_limiter_witness :
    checkRateLimit
      { endpoint := some "health", method := "GET", userAgent := "curl/8.0"
        remoteAddr := "1.2.3.4", xForwardedFor := none, currentUser := none
        appLimits := [] }
      ⟨[("ip:1.2.3.4", [(0, 1)])], 0⟩ 400
      = (none, ⟨[("ip:1.2.3.4", [(0, 1)])], 0⟩) :=
  exempt_requests_bypass_limiter _ _ 400 (Or.inl rfl)

/-! ### Claim theorems C6, C9, C10 -/

/-- Claim C6: when a check triggers the periodic cleanup sweep, the sweep prunes
every other tracked key's records against the single cutoff `now - window`
computed from the triggering check's `window` parameter (removing keys left
empty) — so records of a key with a larger configured window can be removed
while still inside that key's own window, lowering its subsequent usage count
(demonstrated concretely in the witness). -/
theorem sweep_prunes_all_keys_with_triggering_window (st : LimiterState)
    (key k : String) (limit window now : Int)
    (hcl : cleanupInterval < now - st.lastCleanup)
    (hk : k ≠ key)
    (hnd : (st.requests.map Prod.fst).Nodup) :
    alistGet (is_allowed st key limit window now).2.2.requests k
      = (alistGet st.requests k).bind (fun recs =>
          if (recs.filter (fun r => now - window < r.1)).isEmpty then none
          else some (recs.filter (fun r => now - window < r.1))) := by
  unfold is_allowed
  have hac : afterCleanup st window now
      = { requests := cleanupOldEntries st.requests (now - window), lastCleanup := now } := by
    unfold afterCleanup
    rw [if_pos hcl]
  split
  · show alistGet (alistSet (afterCleanup st window now).requests key
        (survivors st key window now)) k = _
    rw [alistGet_set_ne _ _ (Ne.symm hk), hac]
    exact alistGet_cleanup hnd
  · show alistGet (alistSet (afterCleanup st window now).requests key
        (survivors st key window now ++ [(now, 1)])) k = _
    rw [alistGet_set_ne _ _ (Ne.symm hk), hac]
    exact alistGet_cleanup hnd

/-- Witness for C6: key `"a"` holds a record at time 350 (inside its own 3600s
window at time 401); a check for key `"b"` with window 10 at time 400 triggers
the sweep, which deletes that record (cutoff 390), so a follow-up check for
`"a"` with window 3600 counts usage 1 instead of the 2 it counts without the
triggering call. -/
theorem sweep_prunes_all_keys_with_triggering_window_witness :
    alistGet (is_allowed ⟨[("a", [(350, 1)])], 0⟩ "b" 10 10 400).2.2.requests "a"
      = (alistGet (⟨[("a", [(350, 1)])], 0⟩ : LimiterState).requests "a").bind
          (fun recs =>
            if (recs.filter (fun r => (400 : Int) - 10 < r.1)).isEmpty then none
            else some (recs.filter (fun r => (400 : Int) - 10 < r.1))) ∧
    alistGet (is_allowed ⟨[("a", [(350, 1)])], 0⟩ "b" 10 10 400).2.2.requests "a" = none ∧
    ((401 : Int) - 350 < 3600) ∧
    (is_allowed (is_allowed ⟨[("a", [(350, 1)])], 0⟩ "b" 10 10 400).2.2
      "a" 5 3600 401).2.1.current = 1 ∧
    (is_allowed ⟨[("a", [(350, 1)])], 0⟩ "a" 5 3600 401).2.1.current = 2 :=
  ⟨sweep_prunes_all_keys_with_triggering_window ⟨[("a", [(350, 1)])], 0⟩ "b" "a" 10 10 400
      (by decide) (by decide) (by simp),
   by decide, by decide, by decide, by decide⟩

/-- Counterexample for C9: with no authenticated user and an X-Forwarded-For
header that is present but empty, the code falls back to the peer address
(`ip:1.2.3.4`) while the claimed policy ("prefer the header's first entry
whenever the header is present") would produce `ip:`. -/
theorem key_derivation_counterexample :
    generateRateLimitKey
      { endpoint := some "e", method := "GET", userAgent := "ua"
        remoteAddr := "1.2.3.4", xForwardedFor := some "", currentUser := none
        appLimits := [] }
    ≠ specRateLimitKey
      { endpoint := some "e", method := "GET", userAgent := "ua"
        remoteAddr := "1.2.3.4", xForwardedFor := some "", currentUser := none
        appLimits := [] } := by
  decide

/-- Claim C9 (amended): the key is `user:<id>` for an authenticated principal,
else `ip:<addr>` preferring the first comma-separated entry of the
X-Forwarded-For header whenever that header is present *with a nonempty value*
(Python's truthiness check skips an empty header). -/
theorem key_derivation_policy_amended (req : RequestCtx)
    (h : req.xForwardedFor ≠ some "") :
    generateRateLimitKey req = specRateLimitKey req := by
  unfold generateRateLimitKey specRateLimitKey
  cases req.currentUser with
  | some u => rfl
  | none =>
    cases hx : req.xForwardedFor with
    | none => rfl
    | some s =>
      have hs : s ≠ "" := by
        intro he
        exact h (by rw [hx, he])
      simp [hs]

/-- Witness for C9's amended claim: a populated X-Forwarded-For header wins over
the peer address under both the code and the spec policy. -/
theorem key_derivation_policy_amended_witness :
    generateRateLimitKey
      { endpoint := some "e", method := "GET", userAgent := "ua"
        remoteAddr := "10.0.0.1", xForwardedFor := some "5.6.7.8, 9.9.9.9"
        currentUser := none, appLimits := [] }
      = specRateLimitKey
      { endpoint := some "e", method := "GET", userAgent := "ua"
        remoteAddr := "10.0.0.1", xForwardedFor := some "5.6.7.8, 9.9.9.9"
        currentUser := none, appLimits := [] } :=
  key_derivation_policy_amended _ (by decide)

/-- Counterexample for C10: a request whose recorded start timestamp equals the
completion time (elapsed time 0, a falsy float in Python) gets its
`X-Request-ID` header but no `X-Response-Time` header, although a start
timestamp was recorded. -/
theorem response_time_header_counterexample :
    alistGet (afterRequest (some "abc") (some 5) 5 ⟨200, [], []⟩).headers
      "X-Request-ID" = some "abc" ∧
    alistGet (afterRequest (some "abc") (some 5) 5 ⟨200, [], []⟩).headers
      "X-Response-Time" = none := by
  decide

/-- Claim C10 (amended): every completed response carries `X-Request-ID` equal
to the request's correlation identifier, and an `X-Response-Time` header
whenever a start timestamp was recorded *and the measured elapsed time is
nonzero* (a zero elapsed time is falsy in Python and skips the header). -/
theorem response_headers_request_id_and_time (rid : String) (startTime : Option Int)
    (now : Int) (resp : HttpResponse) :
    alistGet (afterRequest (some rid) startTime now resp).headers "X-Request-ID"
      = some rid ∧
    (∀ s, startTime = some s → (now - s) * 1000 ≠ 0 →
      alistGet (afterRequest (some rid) startTime now resp).headers "X-Response-Time"
        = some (toString ((now - s) * 1000) ++ "ms")) := by
  cases startTime with
  | none =>
    simp only [afterRequest]
    refine ⟨alistGet_set_self _ _ _, ?_⟩
    intro s hs hne
    cases hs
  | some s =>
    simp only [afterRequest]
    by_cases h0 : (now - s) * 1000 = 0
    · rw [if_neg (fun hcon => hcon h0)]
      refine ⟨alistGet_set_self _ _ _, ?_⟩
      intro s2 hs2 hne2
      injection hs2 with he
      subst he
      exact absurd h0 hne2
    · rw [if_pos h0]
      constructor
      · rw [alistGet_set_ne _ _ (by decide : ("X-Response-Time" : String) ≠ "X-Request-ID")]
        exact alistGet_set_self _ _ _
      · intro s2 hs2 hne2
        injection hs2 with he
        subst he
        exact alistGet_set_self _ _ _

/-- Witness for C10's amended claim: start 0, completion 1 — both headers
present, with the elapsed time rendered in milliseconds. -/
theorem response_headers_request_id_and_time_witness :
    alistGet (afterRequest (some "abc") (some 0) 1 ⟨200, [], []⟩).headers
      "X-Request-ID" = some "abc" ∧
    alistGet (afterRequest (some "abc") (some 0) 1 ⟨200, [], []⟩).headers
      "X-Response-Time" = some (toString (((1 : Int) - 0) * 1000) ++ "ms") :=
  ⟨(response_headers_request_id_and_time "abc" (some 0) 1 ⟨200, [], []⟩).1,
   (response_headers_request_id_and_time "abc" (some 0) 1 ⟨200, [], []⟩).2 0 rfl
     (by decide)⟩

end Acitech
